import Mathlib

/-!
Formal model of the message relay bot in src/main.py.

Raw text is modelled as List Char.  The Python regular expressions of the
parser are modelled by executable matchers with the same leftmost-search
and greedy-with-backtracking semantics, with the character classes
involved (\s, \d, [A-Za-z0-9], [A-Z0-9], [\d.]) taken over their ASCII
ranges.  Timestamps are integers (seconds).
-/

namespace BinRed

/-- Model of Python whitespace, as used by str.strip and the regex class \s,
over the ASCII range. -/
def pySpace (c : Char) : Bool :=
  c = ' ' || c = '\t' || c = '\n' || c = '\r' || c = '\x0b' || c = '\x0c'

/-- Model of the regex class \d (ASCII digits). -/
def digitChar (c : Char) : Bool := '0' ≤ c && c ≤ '9'

/-- Model of the regex class [\d.]. -/
def digitDot (c : Char) : Bool := digitChar c || c = '.'

/-- Model of the regex class [A-Za-z0-9]. -/
def latinAlnum (c : Char) : Bool :=
  ('A' ≤ c && c ≤ 'Z') || ('a' ≤ c && c ≤ 'z') || ('0' ≤ c && c ≤ '9')

/-- Model of the regex class [A-Z0-9]. -/
def upperAlnum (c : Char) : Bool :=
  ('A' ≤ c && c ≤ 'Z') || ('0' ≤ c && c ≤ '9')

/-- Suffix just after the first occurrence of the character in the list,
if any. -/
def afterGt : List Char → Option (List Char)
  | [] => none
  | c :: rest => if c = '>' then some rest else afterGt rest

/-- At a position holding a left angle bracket, the regex pattern of
src/main.py line 89 consumes up to the first right angle bracket provided
at least one character stands in between; findClose returns the suffix
after that bracket, or none when the pattern does not match here. -/
def findClose : List Char → Option (List Char)
  | [] => none
  | c :: rest => if c = '>' then none else afterGt rest

/-- Fuel-indexed markup stripper; stripTags runs it with fuel equal to the
length of the input, which is always enough because every step consumes at
least one character. -/
def stripTagsF : Nat → List Char → List Char
  | 0, s => s
  | _ + 1, [] => []
  | n + 1, c :: rest =>
    if c = '<' then
      match findClose rest with
      | some rest2 => stripTagsF n rest2
      | none => '<' :: stripTagsF n rest
    else c :: stripTagsF n rest

/-- Model of the markup removal on src/main.py line 89. -/
def stripTags (s : List Char) : List Char := stripTagsF s.length s

/-- Model of Python text.split on the newline character. -/
def splitNl : List Char → List (List Char)
  | [] => [[]]
  | c :: rest =>
    if c = '\n' then [] :: splitNl rest
    else
      match splitNl rest with
      | [] => [[c]]
      | l :: ls => (c :: l) :: ls

/-- Model of Python str.strip (over the modelled whitespace set). -/
def pyStrip (s : List Char) : List Char :=
  (((s.dropWhile pySpace).reverse).dropWhile pySpace).reverse

/-- Model of the line preparation on src/main.py line 91: split on
newlines, strip each line, keep the non-empty ones in order. -/
def cleanLines (s : List Char) : List (List Char) :=
  ((splitNl s).map pyStrip).filter (fun l => !l.isEmpty)

/-- Greedy tail of the line-1 pattern: optional whitespace followed by a
maximal non-empty [A-Za-z0-9] run. -/
def tokenFrom (s : List Char) : Option (List Char) :=
  if (s.dropWhile pySpace).takeWhile latinAlnum = [] then none
  else some ((s.dropWhile pySpace).takeWhile latinAlnum)

/-- Backtracking over the greedy amount group [\d.]+ : the longest prefix
of the digit-dot run is tried first, then shorter non-empty ones, exactly
as the regex engine backtracks. -/
def tryAmountK (run tail : List Char) : Nat → Option (List Char × List Char)
  | 0 => none
  | k + 1 =>
    match tokenFrom (run.drop (k + 1) ++ tail) with
    | some tok => some (run.take (k + 1), tok)
    | none => tryAmountK run tail k

/-- Attempt of the line-1 pattern of src/main.py line 97 anchored at the
head of the list: a plus-minus sign, optional whitespace, a non-empty
digit-dot run, optional whitespace, a non-empty [A-Za-z0-9] run. -/
def amountAt : List Char → Option (List Char × List Char)
  | [] => none
  | c :: rest =>
    if c = '±' then
      tryAmountK ((rest.dropWhile pySpace).takeWhile digitDot)
        ((rest.dropWhile pySpace).dropWhile digitDot)
        ((rest.dropWhile pySpace).takeWhile digitDot).length
    else none

/-- Leftmost search of the line-1 pattern (src/main.py line 97), returning
the amount and token groups. -/
def searchAmount : List Char → Option (List Char × List Char)
  | [] => none
  | c :: rest =>
    match amountAt (c :: rest) with
    | some r => some r
    | none => searchAmount rest

/-- Consume a literal character sequence from the head of the list. -/
def dropLit : List Char → List Char → Option (List Char)
  | [], s => some s
  | _ :: _, [] => none
  | p :: ps, c :: cs => if c = p then dropLit ps cs else none

/-- Attempt of the line-2 pattern of src/main.py line 106 anchored at the
head: the literal word Claimed with a colon, optional whitespace, digits,
optional whitespace, a slash, optional whitespace, digits. -/
def claimAt (s : List Char) : Option (List Char × List Char) :=
  match dropLit "Claimed:".data s with
  | none => none
  | some r1 =>
    if (r1.dropWhile pySpace).takeWhile digitChar = [] then none
    else
      match ((r1.dropWhile pySpace).dropWhile digitChar).dropWhile pySpace with
      | '/' :: r4 =>
        if (r4.dropWhile pySpace).takeWhile digitChar = [] then none
        else some ((r1.dropWhile pySpace).takeWhile digitChar,
          (r4.dropWhile pySpace).takeWhile digitChar)
      | _ => none

/-- Leftmost search of the line-2 pattern (src/main.py line 106),
returning the claimed and total groups. -/
def searchClaim : List Char → Option (List Char × List Char)
  | [] => none
  | c :: rest =>
    match claimAt (c :: rest) with
    | some r => some r
    | none => searchClaim rest

/-- Attempt of the line-3 pattern of src/main.py line 115 anchored at the
head: the gift-box marker, optional whitespace, a non-empty [A-Z0-9] run. -/
def codeAt : List Char → Option (List Char)
  | [] => none
  | c :: rest =>
    if c = '🎁' then
      if (rest.dropWhile pySpace).takeWhile upperAlnum = [] then none
      else some ((rest.dropWhile pySpace).takeWhile upperAlnum)
    else none

/-- Leftmost search of the line-3 pattern (src/main.py line 115),
returning the code group. -/
def searchCode : List Char → Option (List Char)
  | [] => none
  | c :: rest =>
    match codeAt (c :: rest) with
    | some r => some r
    | none => searchCode rest

/-- Model of the output template built on src/main.py lines 122 to 127. -/
def formatRecord (code amount token claimed total : List Char) : String :=
  String.mk ("🎁 Code: ".data ++ code ++ '\n' ::
    ("💰 Amount: ".data ++ amount ++ ' ' :: token ++ '\n' ::
      ("🧧 Progress: ".data ++ claimed ++ " / ".data ++ total ++ '\n' :: '\n' ::
        "#Binance #RedPacketHub".data)))

/-- Model of parse_and_format_message (src/main.py lines 81 to 128); the
repeated cleanLines term is the Python local named lines. -/
def parse_and_format_message (text : String) : Option String :=
  if (cleanLines (stripTags text.data)).length < 3 then none
  else
    match searchAmount ((cleanLines (stripTags text.data)).getD 0 []) with
    | none => none
    | some (amount, token) =>
      match searchClaim ((cleanLines (stripTags text.data)).getD 1 []) with
      | none => none
      | some (claimed, total) =>
        match searchCode ((cleanLines (stripTags text.data)).getD 2 []) with
        | none => none
        | some code => some (formatRecord code amount token claimed total)

/-- Whether the first list is an initial segment of the second. -/
def leadsWith : List Char → List Char → Bool
  | [], _ => true
  | _ :: _, [] => false
  | p :: ps, c :: cs => c = p && leadsWith ps cs

/-- Model of the Python substring test (the in operator on str). -/
def containsSub (needle : List Char) : List Char → Bool
  | [] => needle.isEmpty
  | c :: rest => leadsWith needle (c :: rest) || containsSub needle rest

/-- Model of the hyperlink check of the handler (src/main.py line 142):
a case-sensitive substring search for the three markers, on the raw text,
before any parsing. -/
def hasLink (raw : String) : Bool :=
  containsSub "http://".data raw.data || containsSub "https://".data raw.data
    || containsSub "<a href=".data raw.data

/-- Model of the module-level mutable state of src/main.py lines 74 to 76:
message_queue, is_forwarding, last_forward_time. -/
structure BotState where
  queue : List String
  isForwarding : Bool
  lastForwardTime : Int
deriving DecidableEq

/-- Observable outcome of one handler call.  The relayNowAndSpawnDrain
outcome records that the handler awaited forward_to_targets on the parsed
text and then spawned a new process_queue task (src/main.py lines 155 and
158); enqueued records an append to the tail of message_queue. -/
inductive HandlerAction where
  | skippedLink
  | skippedFormat
  | relayNowAndSpawnDrain (msg : String)
  | enqueued (msg : String)
deriving DecidableEq

/-- Model of handler (src/main.py lines 135 to 161): hyperlink filter,
parse, then the admission decision with its state update. -/
def handler (rateLimit : Int) (st : BotState) (now : Int) (raw : String) :
    BotState × HandlerAction :=
  if hasLink raw then (st, .skippedLink)
  else
    match parse_and_format_message raw with
    | none => (st, .skippedFormat)
    | some parsed =>
      if st.isForwarding = false ∨ now - st.lastForwardTime > rateLimit then
        (⟨st.queue, true, now⟩, .relayNowAndSpawnDrain parsed)
      else
        (⟨st.queue ++ [parsed], st.isForwarding, st.lastForwardTime⟩,
          .enqueued parsed)

/-- Events emitted by one run of the drain loop. -/
inductive DrainEvent where
  | wait (seconds : Nat)
  | deliver (msg : String)
  | clearForwarding
deriving DecidableEq

/-- Model of process_queue (src/main.py lines 182 to 190) on the queue
contents of one forwarding episode: while the queue is non-empty, wait
the configured delay, pop the oldest entry and relay it; when the queue
is empty, set is_forwarding back to false and terminate. -/
def process_queue (delay : Nat) : List String → List DrainEvent
  | [] => [.clearForwarding]
  | m :: rest => .wait delay :: .deliver m :: process_queue delay rest

/-- Messages delivered in a drain trace, in order. -/
def deliveries (evs : List DrainEvent) : List String :=
  evs.filterMap fun e =>
    match e with
    | .deliver m => some m
    | _ => none

/-- Events emitted by one relay call. -/
inductive RelayEvent where
  | sent (ch : Int)
  | sendError (ch : Int)
  | pause (seconds : Nat)
deriving DecidableEq

/-- Model of forward_to_targets (src/main.py lines 170 to 179); send
abstracts the success of the transport call for one destination.  On
success the loop logs the forward and paces one time unit; on failure it
logs the error and backs off two time units; either way it continues with
the remaining destinations, and the exception never escapes the loop. -/
def forward_to_targets (send : Int → Bool) : List Int → List RelayEvent
  | [] => []
  | ch :: rest =>
    (if send ch then [.sent ch, .pause 1] else [.sendError ch, .pause 2])
      ++ forward_to_targets send rest

/-- Destinations attempted in a relay trace, in order, whether the
attempt succeeded or failed. -/
def attempted (evs : List RelayEvent) : List Int :=
  evs.filterMap fun e =>
    match e with
    | .sent ch => some ch
    | .sendError ch => some ch
    | _ => none

/-- The function forward_to_targets reads and writes none of the shared
relay state, so as a state transformer it returns the state unchanged. -/
def forwardStep (st : BotState) (send : Int → Bool) (ts : List Int) :
    BotState × List RelayEvent :=
  (st, forward_to_targets send ts)

/-! Character-class facts used by the parser lemmas. -/

lemma pySpace_cases {c : Char} (h : pySpace c = true) :
    c = ' ' ∨ c = '\t' ∨ c = '\n' ∨ c = '\r' ∨ c = '\x0b' ∨ c = '\x0c' := by
  simp only [pySpace, Bool.or_eq_true, decide_eq_true_eq] at h
  tauto

lemma latinAlnum_of_upperAlnum {c : Char} (h : upperAlnum c = true) :
    latinAlnum c = true := by
  simp only [upperAlnum, Bool.or_eq_true, Bool.and_eq_true, decide_eq_true_eq] at h
  simp only [latinAlnum, Bool.or_eq_true, Bool.and_eq_true, decide_eq_true_eq]
  tauto

lemma digitDot_of_digitChar {c : Char} (h : digitChar c = true) :
    digitDot c = true := by
  simp [digitDot, h]

lemma latinAlnum_clean {c : Char} (h : latinAlnum c = true) :
    pySpace c = false ∧ ¬ c = '\n' ∧ ¬ c = '<' ∧ ¬ c = '±' := by
  refine ⟨?_, ?_, ?_, ?_⟩
  · cases hs : pySpace c with
    | false => rfl
    | true =>
      rcases pySpace_cases hs with h1 | h1 | h1 | h1 | h1 | h1 <;>
        (subst h1; exact absurd h (by decide))
  · intro h1; subst h1; exact absurd h (by decide)
  · intro h1; subst h1; exact absurd h (by decide)
  · intro h1; subst h1; exact absurd h (by decide)

lemma digitDot_clean {c : Char} (h : digitDot c = true) :
    pySpace c = false ∧ ¬ c = '\n' ∧ ¬ c = '<' ∧ ¬ c = '±' := by
  refine ⟨?_, ?_, ?_, ?_⟩
  · cases hs : pySpace c with
    | false => rfl
    | true =>
      rcases pySpace_cases hs with h1 | h1 | h1 | h1 | h1 | h1 <;>
        (subst h1; exact absurd h (by decide))
  · intro h1; subst h1; exact absurd h (by decide)
  · intro h1; subst h1; exact absurd h (by decide)
  · intro h1; subst h1; exact absurd h (by decide)

/-! Facts about the markup stripper. -/

lemma stripTagsF_id : ∀ (n : Nat) (s : List Char),
    (∀ c ∈ s, ¬ c = '<') → s.length ≤ n → stripTagsF n s = s := by
  intro n
  induction n with
  | zero => intro s _ _; rfl
  | succ n ih =>
    intro s h hl
    cases s with
    | nil => rfl
    | cons c rest =>
      have hc : ¬ c = '<' := h c (by simp)
      have hr : rest.length ≤ n := by simpa using hl
      simp only [stripTagsF, if_neg hc]
      rw [ih rest (fun d hd => h d (by simp [hd])) hr]

lemma stripTags_id {s : List Char} (h : ∀ c ∈ s, ¬ c = '<') :
    stripTags s = s :=
  stripTagsF_id s.length s h (le_refl _)

/-! Facts about line splitting and stripping. -/

lemma splitNl_no_nl : ∀ {s : List Char}, (∀ c ∈ s, ¬ c = '\n') →
    splitNl s = [s] := by
  intro s
  induction s with
  | nil => intro _; rfl
  | cons c rest ih =>
    intro h
    have hc : ¬ c = '\n' := h c (by simp)
    simp only [splitNl, if_neg hc]
    rw [ih (fun d hd => h d (by simp [hd]))]

lemma splitNl_append {xs : List Char} (ys : List Char)
    (h : ∀ c ∈ xs, ¬ c = '\n') :
    splitNl (xs ++ '\n' :: ys) = xs :: splitNl ys := by
  induction xs with
  | nil => simp [splitNl]
  | cons c rest ih =>
    have hc : ¬ c = '\n' := h c (by simp)
    simp only [List.cons_append, splitNl, if_neg hc, List.append_eq]
    rw [ih (fun d hd => h d (by simp [hd]))]

lemma dropWhile_eq_self_of_head {s : List Char}
    (h : ∀ c, s.head? = some c → pySpace c = false) :
    s.dropWhile pySpace = s := by
  cases s with
  | nil => rfl
  | cons c rest =>
    rw [List.dropWhile_cons, h c rfl]
    simp

lemma pyStrip_eq_self {s : List Char}
    (h1 : ∀ c, s.head? = some c → pySpace c = false)
    (h2 : ∀ c, s.getLast? = some c → pySpace c = false) :
    pyStrip s = s := by
  unfold pyStrip
  rw [dropWhile_eq_self_of_head h1]
  rw [dropWhile_eq_self_of_head (fun c hc => h2 c (by rwa [List.head?_reverse] at hc))]
  exact List.reverse_reverse s

/-- Splitting a universally quantified membership goal over an append. -/
lemma memAppend {p : Char → Prop} {l1 l2 : List Char}
    (h1 : ∀ c ∈ l1, p c) (h2 : ∀ c ∈ l2, p c) : ∀ c ∈ l1 ++ l2, p c :=
  List.forall_mem_append.mpr ⟨h1, h2⟩

/-- Splitting a universally quantified membership goal over a cons. -/
lemma memCons {p : Char → Prop} {a : Char} {l : List Char}
    (h1 : p a) (h2 : ∀ c ∈ l, p c) : ∀ c ∈ a :: l, p c :=
  List.forall_mem_cons.mpr ⟨h1, h2⟩

/-! Shape facts for the three pattern matchers: when a search succeeds,
the captured groups are non-empty and drawn from the character class of
the corresponding regex group. -/

lemma tokenFrom_some {s t : List Char} (h : tokenFrom s = some t) :
    t ≠ [] ∧ ∀ c ∈ t, latinAlnum c = true := by
  unfold tokenFrom at h
  split at h
  · exact absurd h (by simp)
  · next hne =>
    rw [Option.some_inj] at h
    subst h
    exact ⟨hne, fun c hc => List.mem_takeWhile_imp hc⟩

lemma tryAmountK_some (run tail : List Char) :
    ∀ k a t, k ≤ run.length → tryAmountK run tail k = some (a, t) →
      (a ≠ [] ∧ ∀ c ∈ a, c ∈ run) ∧ (t ≠ [] ∧ ∀ c ∈ t, latinAlnum c = true) := by
  intro k
  induction k with
  | zero => intro a t _ h; exact absurd h (by simp [tryAmountK])
  | succ k ih =>
    intro a t hk h
    rw [tryAmountK] at h
    split at h
    · next tok heq =>
      rw [Option.some_inj, Prod.mk.injEq] at h
      obtain ⟨ha, ht⟩ := h
      subst ha; subst ht
      refine ⟨⟨?_, fun c hc => List.take_subset _ _ hc⟩, tokenFrom_some heq⟩
      have hlen : (run.take (k + 1)).length = k + 1 := List.length_take_of_le hk
      intro hnil
      rw [hnil] at hlen
      exact absurd hlen (by simp)
    · exact ih a t (Nat.le_of_succ_le hk) h

lemma amountAt_some {s a t : List Char} (h : amountAt s = some (a, t)) :
    (a ≠ [] ∧ ∀ c ∈ a, digitDot c = true) ∧
      (t ≠ [] ∧ ∀ c ∈ t, latinAlnum c = true) := by
  cases s with
  | nil => exact absurd h (by simp [amountAt])
  | cons c rest =>
    rw [amountAt] at h
    split at h
    · obtain ⟨⟨ha1, ha2⟩, ht⟩ :=
        tryAmountK_some _ _ _ a t (le_refl _) h
      exact ⟨⟨ha1, fun d hd => List.mem_takeWhile_imp (ha2 d hd)⟩, ht⟩
    · exact absurd h (by simp)

lemma searchAmount_some : ∀ {s a t : List Char},
    searchAmount s = some (a, t) →
      (a ≠ [] ∧ ∀ c ∈ a, digitDot c = true) ∧
        (t ≠ [] ∧ ∀ c ∈ t, latinAlnum c = true) := by
  intro s
  induction s with
  | nil => intro a t h; exact absurd h (by simp [searchAmount])
  | cons c rest ih =>
    intro a t h
    rw [searchAmount] at h
    split at h
    · next r heq =>
      rw [Option.some_inj] at h
      subst h
      exact amountAt_some heq
    · exact ih h

lemma claimAt_some {s cl tot : List Char} (h : claimAt s = some (cl, tot)) :
    (cl ≠ [] ∧ ∀ c ∈ cl, digitChar c = true) ∧
      (tot ≠ [] ∧ ∀ c ∈ tot, digitChar c = true) := by
  unfold claimAt at h
  split at h
  · exact absurd h (by simp)
  · split at h
    · exact absurd h (by simp)
    · next hne1 =>
      split at h
      · split at h
        · exact absurd h (by simp)
        · next hne2 =>
          rw [Option.some_inj, Prod.mk.injEq] at h
          obtain ⟨h1, h2⟩ := h
          subst h1; subst h2
          exact ⟨⟨hne1, fun c hc => List.mem_takeWhile_imp hc⟩,
            ⟨hne2, fun c hc => List.mem_takeWhile_imp hc⟩⟩
      · exact absurd h (by simp)

lemma searchClaim_some : ∀ {s cl tot : List Char},
    searchClaim s = some (cl, tot) →
      (cl ≠ [] ∧ ∀ c ∈ cl, digitChar c = true) ∧
        (tot ≠ [] ∧ ∀ c ∈ tot, digitChar c = true) := by
  intro s
  induction s with
  | nil => intro cl tot h; exact absurd h (by simp [searchClaim])
  | cons c rest ih =>
    intro cl tot h
    rw [searchClaim] at h
    split at h
    · next r heq =>
      rw [Option.some_inj] at h
      subst h
      exact claimAt_some heq
    · exact ih h

lemma codeAt_some {s code : List Char} (h : codeAt s = some code) :
    code ≠ [] ∧ ∀ c ∈ code, upperAlnum c = true := by
  cases s with
  | nil => exact absurd h (by simp [codeAt])
  | cons c rest =>
    rw [codeAt] at h
    split at h
    · split at h
      · exact absurd h (by simp)
      · next hne =>
        rw [Option.some_inj] at h
        subst h
        exact ⟨hne, fun c hc => List.mem_takeWhile_imp hc⟩
    · exact absurd h (by simp)

lemma searchCode_some : ∀ {s code : List Char},
    searchCode s = some code →
      code ≠ [] ∧ ∀ c ∈ code, upperAlnum c = true := by
  intro s
  induction s with
  | nil => intro code h; exact absurd h (by simp [searchCode])
  | cons c rest ih =>
    intro code h
    rw [searchCode] at h
    split at h
    · next r heq =>
      rw [Option.some_inj] at h
      subst h
      exact codeAt_some heq
    · exact ih h

/-- A line without the plus-minus sign can never match the line-1
pattern. -/
lemma searchAmount_none {s : List Char} (h : ∀ c ∈ s, ¬ c = '±') :
    searchAmount s = none := by
  induction s with
  | nil => rfl
  | cons c rest ih =>
    have hc : ¬ c = '±' := h c (by simp)
    rw [searchAmount]
    have ha : amountAt (c :: rest) = none := by
      rw [amountAt, if_neg hc]
    rw [ha]
    exact ih (fun d hd => h d (by simp [hd]))

/-- A successful parse is exactly a match of the three line patterns
followed by the template instantiation. -/
lemma parse_some {text fmt : String}
    (h : parse_and_format_message text = some fmt) :
    ∃ code amount token claimed total,
      searchAmount ((cleanLines (stripTags text.data)).getD 0 [])
          = some (amount, token) ∧
      searchClaim ((cleanLines (stripTags text.data)).getD 1 [])
          = some (claimed, total) ∧
      searchCode ((cleanLines (stripTags text.data)).getD 2 []) = some code ∧
      fmt = formatRecord code amount token claimed total := by
  unfold parse_and_format_message at h
  split at h
  · exact absurd h (by simp)
  · split at h
    · exact absurd h (by simp)
    · next amount token heq1 =>
      split at h
      · exact absurd h (by simp)
      · next claimed total heq2 =>
        split at h
        · exact absurd h (by simp)
        · next code heq3 =>
          rw [Option.some_inj] at h
          exact ⟨code, amount, token, claimed, total, heq1, heq2, heq3, h.symm⟩

/-- The output template never re-parses: its first clean line is the
code line, which contains no plus-minus sign, so the line-1 pattern
fails. -/
lemma parse_formatRecord_none
    (code amount token claimed total : List Char)
    (hcode : code ≠ []) (hcodeA : ∀ c ∈ code, upperAlnum c = true)
    (hamA : ∀ c ∈ amount, digitDot c = true)
    (htok : token ≠ []) (htokA : ∀ c ∈ token, latinAlnum c = true)
    (hclA : ∀ c ∈ claimed, digitChar c = true)
    (htot : total ≠ []) (htotA : ∀ c ∈ total, digitChar c = true) :
    parse_and_format_message (formatRecord code amount token claimed total)
      = none := by
  have hcodeC : ∀ c ∈ code,
      pySpace c = false ∧ ¬ c = '\n' ∧ ¬ c = '<' ∧ ¬ c = '±' :=
    fun c hc => latinAlnum_clean (latinAlnum_of_upperAlnum (hcodeA c hc))
  have hamC : ∀ c ∈ amount,
      pySpace c = false ∧ ¬ c = '\n' ∧ ¬ c = '<' ∧ ¬ c = '±' :=
    fun c hc => digitDot_clean (hamA c hc)
  have htokC : ∀ c ∈ token,
      pySpace c = false ∧ ¬ c = '\n' ∧ ¬ c = '<' ∧ ¬ c = '±' :=
    fun c hc => latinAlnum_clean (htokA c hc)
  have hclC : ∀ c ∈ claimed,
      pySpace c = false ∧ ¬ c = '\n' ∧ ¬ c = '<' ∧ ¬ c = '±' :=
    fun c hc => digitDot_clean (digitDot_of_digitChar (hclA c hc))
  have htotC : ∀ c ∈ total,
      pySpace c = false ∧ ¬ c = '\n' ∧ ¬ c = '<' ∧ ¬ c = '±' :=
    fun c hc => digitDot_clean (digitDot_of_digitChar (htotA c hc))
  have hdata : (formatRecord code amount token claimed total).data
      = ("🎁 Code: ".data ++ code) ++ '\n' ::
        (("💰 Amount: ".data ++ amount ++ ' ' :: token) ++ '\n' ::
          (("🧧 Progress: ".data ++ claimed ++ " / ".data ++ total) ++ '\n' ::
            '\n' :: "#Binance #RedPacketHub".data)) := by
    show ("🎁 Code: ".data ++ code ++ '\n' ::
        ("💰 Amount: ".data ++ amount ++ ' ' :: token ++ '\n' ::
          ("🧧 Progress: ".data ++ claimed ++ " / ".data ++ total ++ '\n' ::
            '\n' :: "#Binance #RedPacketHub".data))) = _
    simp
  have hnoLt : ∀ c ∈ (formatRecord code amount token claimed total).data,
      ¬ c = '<' := by
    rw [hdata]
    exact memAppend
      (memAppend (by decide) (fun c hc => (hcodeC c hc).2.2.1))
      (memCons (by decide)
        (memAppend
          (memAppend
            (memAppend (by decide) (fun c hc => (hamC c hc).2.2.1))
            (memCons (by decide) (fun c hc => (htokC c hc).2.2.1)))
          (memCons (by decide)
            (memAppend
              (memAppend
                (memAppend
                  (memAppend (by decide) (fun c hc => (hclC c hc).2.2.1))
                  (by decide))
                (fun c hc => (htotC c hc).2.2.1))
              (memCons (by decide) (memCons (by decide) (by decide)))))))
  have hstripEq : stripTags (formatRecord code amount token claimed total).data
      = (formatRecord code amount token claimed total).data :=
    stripTags_id hnoLt
  have hL0nl : ∀ c ∈ ("🎁 Code: ".data ++ code), ¬ c = '\n' :=
    memAppend (by decide) (fun c hc => (hcodeC c hc).2.1)
  have hL1nl : ∀ c ∈ ("💰 Amount: ".data ++ amount ++ ' ' :: token),
      ¬ c = '\n' :=
    memAppend (memAppend (by decide) (fun c hc => (hamC c hc).2.1))
      (memCons (by decide) (fun c hc => (htokC c hc).2.1))
  have hL2nl : ∀ c ∈ ("🧧 Progress: ".data ++ claimed ++ " / ".data ++ total),
      ¬ c = '\n' :=
    memAppend
      (memAppend
        (memAppend (by decide) (fun c hc => (hclC c hc).2.1))
        (by decide))
      (fun c hc => (htotC c hc).2.1)
  have hsplit : splitNl (formatRecord code amount token claimed total).data
      = [("🎁 Code: ".data ++ code),
         ("💰 Amount: ".data ++ amount ++ ' ' :: token),
         ("🧧 Progress: ".data ++ claimed ++ " / ".data ++ total),
         [], "#Binance #RedPacketHub".data] := by
    rw [hdata, splitNl_append _ hL0nl, splitNl_append _ hL1nl,
      splitNl_append _ hL2nl]
    rw [show splitNl ('\n' :: "#Binance #RedPacketHub".data)
        = [[], "#Binance #RedPacketHub".data] from by decide]
  have hstrip0 : pyStrip ("🎁 Code: ".data ++ code)
      = "🎁 Code: ".data ++ code := by
    obtain hnil | ⟨ck, b, hb⟩ := List.eq_nil_or_concat' code
    · exact absurd hnil hcode
    · apply pyStrip_eq_self
      · intro c hc
        rw [show (("🎁 Code: ".data ++ code) : List Char).head? = some '🎁'
            from rfl, Option.some_inj] at hc
        subst hc; decide
      · intro c hc
        rw [hb, ← List.append_assoc, List.getLast?_concat,
          Option.some_inj] at hc
        subst hc
        exact (hcodeC b (by rw [hb]; simp)).1
  have hstrip1 : pyStrip ("💰 Amount: ".data ++ amount ++ ' ' :: token)
      = "💰 Amount: ".data ++ amount ++ ' ' :: token := by
    obtain hnil | ⟨tk, b, hb⟩ := List.eq_nil_or_concat' token
    · exact absurd hnil htok
    · apply pyStrip_eq_self
      · intro c hc
        rw [show (("💰 Amount: ".data ++ amount ++ ' ' :: token) :
            List Char).head? = some '💰' from rfl, Option.some_inj] at hc
        subst hc; decide
      · intro c hc
        rw [hb, show "💰 Amount: ".data ++ amount ++ ' ' :: (tk ++ [b])
            = ("💰 Amount: ".data ++ amount ++ ' ' :: tk) ++ [b] from by simp,
          List.getLast?_concat, Option.some_inj] at hc
        subst hc
        exact (htokC b (by rw [hb]; simp)).1
  have hstrip2 : pyStrip
      ("🧧 Progress: ".data ++ claimed ++ " / ".data ++ total)
      = "🧧 Progress: ".data ++ claimed ++ " / ".data ++ total := by
    obtain hnil | ⟨tt, b, hb⟩ := List.eq_nil_or_concat' total
    · exact absurd hnil htot
    · apply pyStrip_eq_self
      · intro c hc
        rw [show (("🧧 Progress: ".data ++ claimed ++ " / ".data ++ total) :
            List Char).head? = some '🧧' from rfl, Option.some_inj] at hc
        subst hc; decide
      · intro c hc
        rw [hb, show "🧧 Progress: ".data ++ claimed ++ " / ".data
              ++ (tt ++ [b])
            = ("🧧 Progress: ".data ++ claimed ++ " / ".data ++ tt) ++ [b]
            from by simp,
          List.getLast?_concat, Option.some_inj] at hc
        subst hc
        exact (htotC b (by rw [hb]; simp)).1
  have hclean : cleanLines (formatRecord code amount token claimed total).data
      = [("🎁 Code: ".data ++ code),
         ("💰 Amount: ".data ++ amount ++ ' ' :: token),
         ("🧧 Progress: ".data ++ claimed ++ " / ".data ++ total),
         "#Binance #RedPacketHub".data] := by
    unfold cleanLines
    rw [hsplit]
    simp only [List.map_cons, List.map_nil, hstrip0, hstrip1, hstrip2]
    rw [show pyStrip [] = ([] : List Char) from rfl,
      show pyStrip "#Binance #RedPacketHub".data
        = "#Binance #RedPacketHub".data from by decide]
    have he0 : (("🎁 Code: ".data ++ code) : List Char).isEmpty = false := rfl
    have he1 : (("💰 Amount: ".data ++ amount ++ ' ' :: token) :
        List Char).isEmpty = false := rfl
    have he2 : (("🧧 Progress: ".data ++ claimed ++ " / ".data ++ total) :
        List Char).isEmpty = false := rfl
    simp [List.filter_cons, he0, he1, he2]
  have hL0pm : ∀ c ∈ ("🎁 Code: ".data ++ code), ¬ c = '±' :=
    memAppend (by decide) (fun c hc => (hcodeC c hc).2.2.2)
  unfold parse_and_format_message
  rw [hstripEq, hclean]
  rw [if_neg (by simp)]
  rw [show (([("🎁 Code: ".data ++ code),
      ("💰 Amount: ".data ++ amount ++ ' ' :: token),
      ("🧧 Progress: ".data ++ claimed ++ " / ".data ++ total),
      "#Binance #RedPacketHub".data] : List (List Char)).getD 0 [])
      = "🎁 Code: ".data ++ code from rfl]
  rw [searchAmount_none hL0pm]

/-- Claim C1: on the well-formed raw input of the spec, parse returns
exactly the four-line template with the blank line before the hashtag
line. -/
theorem parse_roundtrip_example :
    parse_and_format_message
        "💰 ± 0.00000002 BNB\n🧧 Claimed: 646 / 711\n🎁 IJAU5UL6"
      = some "🎁 Code: IJAU5UL6\n💰 Amount: 0.00000002 BNB\n🧧 Progress: 646 / 711\n\n#Binance #RedPacketHub" := by
  decide

/-- Claim C2: an accepted record is relayed immediately exactly when
is_forwarding is false or more than rateLimit seconds passed since the
last immediate send; the immediate slot resets last_forward_time to now
and sets is_forwarding, while the other branch appends the record to the
tail of the queue and leaves the rate state unchanged. -/
theorem handler_admission (rateLimit : Int) (st : BotState) (now : Int)
    (raw parsed : String)
    (hlink : hasLink raw = false)
    (hparse : parse_and_format_message raw = some parsed) :
    (handler rateLimit st now raw
        = (⟨st.queue, true, now⟩, HandlerAction.relayNowAndSpawnDrain parsed)
      ↔ (st.isForwarding = false ∨ now - st.lastForwardTime > rateLimit))
    ∧ (¬ (st.isForwarding = false ∨ now - st.lastForwardTime > rateLimit)
        → handler rateLimit st now raw
          = (⟨st.queue ++ [parsed], st.isForwarding, st.lastForwardTime⟩,
              HandlerAction.enqueued parsed)) := by
  by_cases hcond : st.isForwarding = false ∨ now - st.lastForwardTime > rateLimit
  · constructor
    · simp [handler, hlink, hparse, hcond]
    · intro hn; exact absurd hcond hn
  · constructor
    · simp [handler, hlink, hparse, hcond]
    · intro _; simp [handler, hlink, hparse, hcond]

/-- Witness for C2 with rateLimitSeconds sixty: thirty seconds after the
last immediate send the record is queued, ninety seconds after it is sent
immediately and resets the window. -/
theorem handler_admission_check :
    handler 60 ⟨[], true, 0⟩ 30
        "💰 ± 0.00000002 BNB\n🧧 Claimed: 646 / 711\n🎁 IJAU5UL6"
      = (⟨["🎁 Code: IJAU5UL6\n💰 Amount: 0.00000002 BNB\n🧧 Progress: 646 / 711\n\n#Binance #RedPacketHub"], true, 0⟩,
          HandlerAction.enqueued "🎁 Code: IJAU5UL6\n💰 Amount: 0.00000002 BNB\n🧧 Progress: 646 / 711\n\n#Binance #RedPacketHub")
    ∧ handler 60 ⟨[], true, 0⟩ 90
        "💰 ± 0.00000002 BNB\n🧧 Claimed: 646 / 711\n🎁 IJAU5UL6"
      = (⟨[], true, 90⟩,
          HandlerAction.relayNowAndSpawnDrain "🎁 Code: IJAU5UL6\n💰 Amount: 0.00000002 BNB\n🧧 Progress: 646 / 711\n\n#Binance #RedPacketHub") :=
  ⟨(handler_admission 60 ⟨[], true, 0⟩ 30
      "💰 ± 0.00000002 BNB\n🧧 Claimed: 646 / 711\n🎁 IJAU5UL6"
      "🎁 Code: IJAU5UL6\n💰 Amount: 0.00000002 BNB\n🧧 Progress: 646 / 711\n\n#Binance #RedPacketHub"
      (by decide) (by decide)).2 (by decide),
   (handler_admission 60 ⟨[], true, 0⟩ 90
      "💰 ± 0.00000002 BNB\n🧧 Claimed: 646 / 711\n🎁 IJAU5UL6"
      "🎁 Code: IJAU5UL6\n💰 Amount: 0.00000002 BNB\n🧧 Progress: 646 / 711\n\n#Binance #RedPacketHub"
      (by decide) (by decide)).1.mpr (Or.inr (by decide))⟩

/-- Claim C3: on the records of one forwarding episode the drain loop
waits the configured delay before every delivery, delivers exactly the
queued records in first-in-first-out order, and clears is_forwarding
exactly once, after the last delivery, then terminates. -/
theorem process_queue_drains (delay : Nat) (q : List String) :
    process_queue delay q
        = (q.flatMap fun m => [DrainEvent.wait delay, DrainEvent.deliver m])
            ++ [DrainEvent.clearForwarding]
    ∧ deliveries (process_queue delay q) = q
    ∧ (process_queue delay q).getLast? = some DrainEvent.clearForwarding
    ∧ (process_queue delay q).count DrainEvent.clearForwarding = 1 := by
  have h2 : deliveries (process_queue delay q) = q := by
    induction q with
    | nil => rfl
    | cons m rest ih =>
      simp only [process_queue, deliveries, List.filterMap_cons] at ih ⊢
      simp [ih]
  have h1 : process_queue delay q
      = (q.flatMap fun m => [DrainEvent.wait delay, DrainEvent.deliver m])
          ++ [DrainEvent.clearForwarding] := by
    clear h2
    induction q with
    | nil => rfl
    | cons m rest ih => simp [process_queue, ih]
  have h3 : (process_queue delay q).getLast?
      = some DrainEvent.clearForwarding := by
    rw [h1]; exact List.getLast?_concat _
  have h4 : (process_queue delay q).count DrainEvent.clearForwarding = 1 := by
    rw [h1, List.count_append]
    have hz : (q.flatMap fun m =>
        [DrainEvent.wait delay, DrainEvent.deliver m]).count
          DrainEvent.clearForwarding = 0 := by
      rw [List.count_eq_zero]
      intro hmem
      rw [List.mem_flatMap] at hmem
      obtain ⟨m, _, hm⟩ := hmem
      simp at hm
    simp [hz, List.count_cons]
  exact ⟨h1, h2, h3, h4⟩

/-- Claim C4: any raw text containing one of the three hyperlink markers
is skipped by the handler before parsing, producing no record and leaving
the state untouched, whatever its structure. -/
theorem handler_link_rejected (rateLimit : Int) (st : BotState) (now : Int)
    (raw : String)
    (h : containsSub "http://".data raw.data = true
        ∨ containsSub "https://".data raw.data = true
        ∨ containsSub "<a href=".data raw.data = true) :
    handler rateLimit st now raw = (st, HandlerAction.skippedLink) := by
  have hl : hasLink raw = true := by
    unfold hasLink
    rcases h with h | h | h <;> simp [h]
  simp [handler, hl]

/-- Witness for C4: an otherwise well-formed message carrying a link is
skipped. -/
theorem handler_link_rejected_check :
    handler 60 ⟨[], false, 0⟩ 0
        "💰 ± 1 BNB\n🧧 Claimed: 1 / 2\n🎁 ABC https://x"
      = (⟨[], false, 0⟩, HandlerAction.skippedLink) :=
  handler_link_rejected 60 ⟨[], false, 0⟩ 0
    "💰 ± 1 BNB\n🧧 Claimed: 1 / 2\n🎁 ABC https://x"
    (Or.inr (Or.inl (by decide)))

/-- Claim C5 evidence: with the drain loop of an episode still active
(is_forwarding true and a message pending in the queue), a new accepted
record arriving after the rate window takes the immediate branch, which
on src/main.py line 158 unconditionally spawns a further process_queue
task, so a second drain loop starts while the first one is running. -/
theorem handler_double_drain_spawn :
    (BotState.mk ["pending"] true 0).isForwarding = true
    ∧ handler 60 (BotState.mk ["pending"] true 0) 90
        "💰 ± 0.00000002 BNB\n🧧 Claimed: 646 / 711\n🎁 IJAU5UL6"
      = (BotState.mk ["pending"] true 90,
          HandlerAction.relayNowAndSpawnDrain
            "🎁 Code: IJAU5UL6\n💰 Amount: 0.00000002 BNB\n🧧 Progress: 646 / 711\n\n#Binance #RedPacketHub") := by
  exact ⟨rfl, by decide⟩

/-- Claim C6: one relay call attempts every destination of the fixed list
in order, a failing destination is logged and followed by the two-unit
backoff pause after which the remaining destinations are still attempted,
nothing escapes to the caller, and the shared state is untouched. -/
theorem forward_isolation (send : Int → Bool) (ts : List Int)
    (st : BotState) :
    forward_to_targets send ts
        = ts.flatMap (fun ch => if send ch
            then [RelayEvent.sent ch, RelayEvent.pause 1]
            else [RelayEvent.sendError ch, RelayEvent.pause 2])
    ∧ attempted (forward_to_targets send ts) = ts
    ∧ forwardStep st send ts = (st, forward_to_targets send ts) := by
  refine ⟨?_, ?_, rfl⟩
  · induction ts with
    | nil => rfl
    | cons ch rest ih =>
      by_cases hs : send ch <;> simp [forward_to_targets, hs, ih]
  · induction ts with
    | nil => rfl
    | cons ch rest ih =>
      by_cases hs : send ch <;>
        simp only [forward_to_targets, attempted, hs, if_pos, if_neg,
          List.filterMap_append, List.filterMap_cons] at ih ⊢ <;>
        simp [ih]

/-- Claim C7: when markup stripping and line cleaning leave fewer than
three non-empty lines, parse rejects. -/
theorem parse_too_few_lines (raw : String)
    (h : (cleanLines (stripTags raw.data)).length < 3) :
    parse_and_format_message raw = none := by
  unfold parse_and_format_message
  rw [if_pos h]

/-- Witness for C7: a two-line message is rejected. -/
theorem parse_too_few_lines_check :
    parse_and_format_message "hello\nworld" = none :=
  parse_too_few_lines "hello\nworld" (by decide)

/-- Claim C8: a raw message with exactly three non-empty lines whose
first and third lines match their patterns is still rejected when the
second line lacks the Claimed pattern. -/
theorem parse_bad_line2 (raw : String) (a t code : List Char)
    (h3 : (cleanLines (stripTags raw.data)).length = 3)
    (h1 : searchAmount ((cleanLines (stripTags raw.data)).getD 0 [])
        = some (a, t))
    (hcodeOk : searchCode ((cleanLines (stripTags raw.data)).getD 2 [])
        = some code)
    (h2 : searchClaim ((cleanLines (stripTags raw.data)).getD 1 [])
        = none) :
    parse_and_format_message raw = none := by
  unfold parse_and_format_message
  rw [if_neg (by omega), h1, h2]

/-- Witness for C8: three clean lines, matching first and third lines, a
second line without the Claimed pattern. -/
theorem parse_bad_line2_check :
    parse_and_format_message "💰 ± 1 BNB\noops\n🎁 ABC" = none :=
  parse_bad_line2 "💰 ± 1 BNB\noops\n🎁 ABC"
    "1".data "BNB".data "ABC".data
    (by decide) (by decide) (by decide) (by decide)

/-- Claim C9: feeding a successful parse output back into parse is
rejected: the reformatted text never re-matches, because its first clean
line has no plus-minus sign. -/
theorem parse_not_reparseable (raw fmt : String)
    (h : parse_and_format_message raw = some fmt) :
    parse_and_format_message fmt = none := by
  obtain ⟨code, amount, token, claimed, total, h1, h2, h3, hfmt⟩ :=
    parse_some h
  obtain ⟨⟨_, hamA⟩, htok, htokA⟩ := searchAmount_some h1
  obtain ⟨⟨_, hclA⟩, htot, htotA⟩ := searchClaim_some h2
  obtain ⟨hcode, hcodeA⟩ := searchCode_some h3
  subst hfmt
  exact parse_formatRecord_none code amount token claimed total
    hcode hcodeA hamA htok htokA hclA htot htotA

/-- Witness for C9: the formatted output of the round-trip example is
rejected when parsed again. -/
theorem parse_not_reparseable_check :
    parse_and_format_message
        "🎁 Code: IJAU5UL6\n💰 Amount: 0.00000002 BNB\n🧧 Progress: 646 / 711\n\n#Binance #RedPacketHub"
      = none :=
  parse_not_reparseable
    "💰 ± 0.00000002 BNB\n🧧 Claimed: 646 / 711\n🎁 IJAU5UL6"
    "🎁 Code: IJAU5UL6\n💰 Amount: 0.00000002 BNB\n🧧 Progress: 646 / 711\n\n#Binance #RedPacketHub"
    (by decide)

/-- Claim C10: the amount group accepts any non-empty run of digits and
dots, so an input whose amount is three dots, not a well-formed decimal,
is accepted and the dots are copied verbatim into the output. -/
theorem parse_accepts_dotted_amount :
    parse_and_format_message "💰 ± ... BNB\n🧧 Claimed: 1 / 2\n🎁 ABC12"
      = some "🎁 Code: ABC12\n💰 Amount: ... BNB\n🧧 Progress: 1 / 2\n\n#Binance #RedPacketHub"
    ∧ ("...".data.any digitChar) = false
    ∧ ("...".data.isEmpty) = false := by
  refine ⟨by decide, by decide, by decide⟩

end BinRed
